import Mathlib

/-!
Shallow embedding of the runty8 sprite/map editor core (src/src/editor.rs,
src/src/lib.rs).  Pure Rust functions become Lean functions; the mutable
`Editor` struct and the `Resources` it borrows become explicit state passed
through `Editor.update` / `handleKeyCombo`.

Modules declared in editor.rs but whose sources are not in the repository
snapshot (key_combo, undo_redo, sprite, map, brush_size, notification) are
modelled from the specification; every such definition carries a doc comment
starting with "Modelled from the spec:".
-/

namespace Runty8

/-- Physical key identities, from the `Key` enum in src/src/lib.rs
(letters A-Z plus the Control modifier). -/
inductive Key where
  | a | b | c | d | e | f | g | h | i | j | k | l | m
  | n | o | p | q | r | s | t | u | v | w | x | y | z
  | control
deriving DecidableEq, Repr

/-- Logical press/release state of a key, from `KeyState` in src/src/lib.rs. -/
inductive KeyState where
  | up
  | down
deriving DecidableEq, Repr

/-- A keyboard event, from `KeyboardEvent` in src/src/lib.rs. -/
structure KeyboardEvent where
  key : Key
  state : KeyState
deriving DecidableEq, Repr

/-- Colors are small unsigned palette indices (`Color` = u8 in the runtime). -/
abbrev Color := Nat

/-- A sprite is a fixed-length (8 x 8 = 64) row-major sequence of colors. -/
abbrev Sprite := List Color

/-- Modelled from the spec: the sprite-sheet storage container (module
runtime::sprite_sheet, not under src/), exposed only through a get/set
contract; modelled as a total map from sprite index to sprite. -/
abbrev SpriteSheet := Nat → Sprite

/-- Modelled from the spec: the tile-map storage container (module
runtime::map, not under src/), a 2-D grid exposed through a get/set
contract; modelled as a total map from (x, y) to a tile id. -/
abbrev Map := Nat × Nat → Nat

/-- Modelled from the spec: `mset` pixel-write of the map container. -/
def Map.mset (m : Map) (x y : Nat) (v : Nat) : Map :=
  fun p => if p = (x, y) then v else m p

/-- Modelled from the spec: sprite flags container (module runtime::flags,
not under src/), one bitmask per sprite. -/
abbrev Flags := Nat → Nat

/-- Modelled from the spec: read flag bit `idx` of sprite `i` (fget_n). -/
def Flags.fgetN (f : Flags) (i idx : Nat) : Bool :=
  (f i).testBit idx

/-- Modelled from the spec: set flag bit `idx` of sprite `i` to `v` (fset). -/
def Flags.fset (f : Flags) (i idx : Nat) (v : Bool) : Flags :=
  fun j =>
    if j = i then
      if v then f i ||| (1 <<< idx)
      else if (f i).testBit idx then f i - (1 <<< idx) else f i
    else f j

/-- Modelled from the spec: the sprite read-at operation `pget` of the sprite
module (not under src/): out-of-bounds reads are safe and return color 0;
in-bounds cells are addressed row-major on the 8 x 8 grid. -/
def Sprite.pget (s : Sprite) (x y : Int) : Color :=
  if 0 ≤ x ∧ x < 8 ∧ 0 ≤ y ∧ y < 8 then s.getD (y * 8 + x).toNat 0 else 0

/-- Modelled from the spec: the sprite write-at operation `pset` of the sprite
module (not under src/): out-of-bounds writes are skipped (a no-op, not an
error); in-bounds cells are addressed row-major on the 8 x 8 grid. -/
def Sprite.pset (s : Sprite) (x y : Int) (c : Color) : Sprite :=
  if 0 ≤ x ∧ x < 8 ∧ 0 ≤ y ∧ y < 8 then s.set (y * 8 + x).toNat c else s

/-- Modelled from the spec: the `flip_vertically` sprite transform (sprite
module, not under src/): reverses the order of the 8 rows of the 8 x 8 grid. -/
def Sprite.flipVertically (s : Sprite) : Sprite :=
  (List.range 64).map (fun i => s.getD ((7 - i / 8) * 8 + i % 8) 0)

/-- Modelled from the spec: the `flip_horizontally` sprite transform (sprite
module, not under src/): reverses each row of the 8 x 8 grid. -/
def Sprite.flipHorizontally (s : Sprite) : Sprite :=
  (List.range 64).map (fun i => s.getD ((i / 8) * 8 + (7 - i % 8)) 0)

/-- The clipboard, from `Clipboard` in src/src/editor.rs: a pixel buffer. -/
structure Clipboard where
  data : List Color
deriving DecidableEq, Repr

/-- From `Clipboard::new` in src/src/editor.rs: `vec![0; 64]`. -/
def Clipboard.new : Clipboard :=
  { data := List.replicate 64 0 }

/-- From `Clipboard::copy_sprite` in src/src/editor.rs: the buffer becomes a
full snapshot of the sprite's cells. -/
def Clipboard.copySprite (_cb : Clipboard) (sprite : Sprite) : Clipboard :=
  { data := sprite }

/-- From `Clipboard::paste_into` in src/src/editor.rs: each pair produced by
zipping the sprite with the buffer overwrites the sprite pixel with the
clipboard pixel; sprite cells beyond the buffer length are untouched. -/
def Clipboard.pasteInto (cb : Clipboard) (sprite : Sprite) : Sprite :=
  List.zipWith (fun _a b => b) sprite cb.data ++ sprite.drop cb.data.length

/-- Modelled from the spec: the reversible edit record (module undo_redo, not
under src/).  The only variant constructed by the editor is
`Command::pixel_changed(target, x, y, before, after)`. -/
inductive Command where
  | pixelChanged (target : Nat) (x y : Int) (before after : Color)
deriving DecidableEq, Repr

/-- Modelled from the spec: applying a command's inverse writes `before` back
at the recorded coordinates of the referenced sprite. -/
def Command.applyInverse (c : Command) (sheet : SpriteSheet) : SpriteSheet :=
  match c with
  | .pixelChanged target x y before _after =>
      fun j => if j = target then Sprite.pset (sheet j) x y before else sheet j

/-- Modelled from the spec: applying a command forward writes `after` at the
recorded coordinates of the referenced sprite. -/
def Command.applyForward (c : Command) (sheet : SpriteSheet) : SpriteSheet :=
  match c with
  | .pixelChanged target x y _before after =>
      fun j => if j = target then Sprite.pset (sheet j) x y after else sheet j

/-- Modelled from the spec: a user-facing description of an undone/redone
command, naming the changed entity. -/
def Command.describe (c : Command) : String :=
  match c with
  | .pixelChanged target _ _ _ _ => "SPRITE " ++ toString target

/-- Modelled from the spec: the undo/redo history (module undo_redo, not under
src/): two ordered sequences of commands, most recent last. -/
structure Commands where
  past : List Command
  future : List Command
deriving DecidableEq, Repr

/-- Modelled from the spec: both stacks are empty at session start. -/
def Commands.new : Commands :=
  { past := [], future := [] }

/-- Modelled from the spec: `push` appends the command to `past` and clears
`future` (redo history is invalidated by any new edit). -/
def Commands.push (cmds : Commands) (c : Command) : Commands :=
  { past := cmds.past ++ [c], future := [] }

/-- Modelled from the spec: `undo` pops the most recent `past` entry, applies
its inverse to the referenced sprite, pushes it onto `future`, and returns a
description for user-facing notification; with empty `past` it is a benign
no-op returning nothing. -/
def Commands.undo (cmds : Commands) (sheet : SpriteSheet) :
    Commands × SpriteSheet × Option String :=
  match cmds.past.getLast? with
  | none => (cmds, sheet, none)
  | some c =>
      ({ past := cmds.past.dropLast, future := cmds.future ++ [c] },
       c.applyInverse sheet, some ("UNDID " ++ c.describe))

/-- Modelled from the spec: `redo` is symmetric, re-applying the most recent
`future` entry and moving it back to `past`. -/
def Commands.redo (cmds : Commands) (sheet : SpriteSheet) :
    Commands × SpriteSheet × Option String :=
  match cmds.future.getLast? with
  | none => (cmds, sheet, none)
  | some c =>
      ({ past := cmds.past ++ [c], future := cmds.future.dropLast },
       c.applyForward sheet, some ("REDID " ++ c.describe))

/-- Modelled from the spec: a brush shape (module brush_size, not under src/)
is an immutable precomputed ordered sequence of (dx, dy) offsets. -/
abbrev BrushSize := List (Int × Int)

/-- Modelled from the spec: the tiny brush covers a single cell. -/
def BrushSize.tiny : BrushSize := [(0, 0)]

/-- Modelled from the spec: a human-readable brush-size label for the bottom
bar (UI glue; content immaterial to the editing core). -/
def BrushSize.toHumanReadable (b : BrushSize) : String :=
  toString b.length

/-- Modelled from the spec: the notification sink accepting short status
strings, fire-and-forget; modelled as the list of alerts so far. -/
abbrev NotificationState := List String

/-- Modelled from the spec: `alert` hands one status string to the sink. -/
def NotificationState.alert (n : NotificationState) (msg : String) :
    NotificationState :=
  n ++ [msg]

/-- A chord registration record (module key_combo, not under src/).
Modelled from the spec: trigger key plus exact required modifier set,
mapped to one action. -/
structure Chord (A : Type) where
  action : A
  trigger : Key
  mods : List Key
deriving DecidableEq, Repr

/-- Modelled from the spec: only Control is a modifier key. -/
def Key.isModifier : Key → Bool
  | .control => true
  | _ => false

/-- Modelled from the spec: exact-set equality of modifier sets (membership
only; order irrelevant). -/
def eqSet (a b : List Key) : Bool :=
  a.all (fun key => decide (key ∈ b)) && b.all (fun key => decide (key ∈ a))

/-- Modelled from the spec: scan the chord table in registration order; the
first chord whose trigger equals the pressed key and whose required modifier
set exactly equals the current modifier set wins. -/
def findCombo {A : Type} (key : Key) (current : List Key) :
    List (Chord A) → Option A
  | [] => none
  | c :: rest =>
      if c.trigger = key ∧ eqSet c.mods current = true then some c.action
      else findCombo key current rest

/-- Modelled from the spec: the chord recognizer (KeyCombos of module
key_combo, not under src/): an ordered chord table plus the live set of
currently held modifier keys. -/
structure KeyCombos (A : Type) where
  table : List (Chord A)
  held : List Key

/-- Modelled from the spec: a recognizer starts with an empty table and no
held modifiers. -/
def KeyCombos.new {A : Type} : KeyCombos A :=
  { table := [], held := [] }

/-- Modelled from the spec: `push` registers one chord at the end of the
table (registration order is the tie-break rule). -/
def KeyCombos.push {A : Type} (kc : KeyCombos A) (action : A) (trigger : Key)
    (mods : List Key) : KeyCombos A :=
  { kc with table := kc.table ++ [{ action := action, trigger := trigger, mods := mods }] }

/-- Modelled from the spec: `on_event`.  A key-up only removes a released
modifier from the live set and never fires an action.  A key-down first
updates the live set (inserting the key if it is a modifier), then matches
the pressed key against the table using the current modifier set excluding
the key itself; at most one action is returned. -/
def KeyCombos.onEvent {A : Type} (kc : KeyCombos A) (ev : KeyboardEvent) :
    KeyCombos A × Option A :=
  match ev.state with
  | .up =>
      if ev.key.isModifier then ({ kc with held := kc.held.erase ev.key }, none)
      else (kc, none)
  | .down =>
      let held' :=
        if ev.key.isModifier ∧ ¬ (ev.key ∈ kc.held) then kc.held ++ [ev.key]
        else kc.held
      ({ kc with held := held' }, findCombo ev.key (held'.erase ev.key) kc.table)

/-- Modelled from the spec: fold a whole event history through the
recognizer, discarding fired actions (they are dispatched elsewhere). -/
def runEvents {A : Type} (kc : KeyCombos A) (evs : List KeyboardEvent) :
    KeyCombos A :=
  evs.foldl (fun k e => (k.onEvent e).1) kc

/-- The editing actions triggerable by chords, from `KeyComboAction` in
src/src/editor.rs. -/
inductive KeyComboAction where
  | copy
  | paste
  | flipVertically
  | flipHorizontally
  | undo
  | redo
  | save
  | previousTab
  | nextTab
deriving DecidableEq, Repr

/-- The two editor modes, from the `Tab` enum in src/src/editor.rs. -/
inductive Tab where
  | spriteEditor
  | mapEditor
deriving DecidableEq, Repr

/-- From `Tab::previous` in src/src/editor.rs. -/
def Tab.previous : Tab → Tab
  | .spriteEditor => .mapEditor
  | .mapEditor => .spriteEditor

/-- From `Tab::next` in src/src/editor.rs. -/
def Tab.next : Tab → Tab
  | .spriteEditor => .mapEditor
  | .mapEditor => .spriteEditor

/-- Sprite-shift directions, from `ShiftDirection` in src/src/editor.rs. -/
inductive ShiftDirection where
  | up
  | down
  | left
  | right
deriving DecidableEq, Repr

/-- From `ShiftDirection::from_key` in src/src/editor.rs: W is up, D right,
S down, A left; every other key maps to none. -/
def ShiftDirection.fromKey : Key → Option ShiftDirection
  | .w => some .up
  | .d => some .right
  | .s => some .down
  | .a => some .left
  | _ => none

/-- The editor messages, from the `Msg` enum in src/src/editor.rs.  The
variants routed entirely into the excluded UI sub-editors
(SpriteEditorMsg, MapEditorMsg) are omitted along with those collaborators. -/
inductive Msg where
  | spriteTabClicked
  | mapButtonClicked
  | colorHovered (c : Color)
  | spritePageSelected (page : Nat)
  | spriteButtonClicked (sprite : Nat)
  | flagToggled (flagIndex : Nat)
  | flagHovered (bitNumber : Nat)
  | spriteEdited (x y : Nat) (color : Color)
  | toolSelected (tool : Nat)
  | clickedMapTile (x y : Nat)
  | keyboardEvent (ev : KeyboardEvent)
  | brushSizeSliderHovered
  | brushSizeSelected (b : BrushSize)

/-- Modelled from the spec: the bundle of external collaborators the editor
borrows each update (sprite sheet, map, sprite flags); the on-disk assets
path used only by the excluded serialization code is omitted. -/
structure Resources where
  spriteSheet : SpriteSheet
  map : Map
  spriteFlags : Flags

/-- The editing-session state, from the `Editor` struct in src/src/editor.rs.
Purely visual widget state (cursor, button states, the editor's own icon
sprite sheet, and the two UI sub-editors) belongs to the excluded UI
framework and is omitted. -/
structure Editor where
  tab : Tab
  selectedSpritePage : Nat
  selectedTool : Nat
  bottomBarText : String
  notification : NotificationState
  keyCombos : KeyCombos KeyComboAction
  clipboard : Clipboard
  commands : Commands
  brushSize : BrushSize
  selectedSprite : Nat

/-- The chord table registered in `Editor::init` (src/src/editor.rs), in
registration order.  The last two registrations of the source
(PreviousTab on Alt+LeftArrow, NextTab on Alt+RightArrow) reference keys
that do not exist in the `Key` enum of src/src/lib.rs and are omitted. -/
def editorKeyCombos : KeyCombos KeyComboAction :=
  KeyCombos.new
    |>.push .copy .c [.control]
    |>.push .paste .v [.control]
    |>.push .undo .z [.control]
    |>.push .redo .y [.control]
    |>.push .save .s [.control]
    |>.push .flipVertically .v []
    |>.push .flipHorizontally .f []

/-- The initial session state, from `Editor::init` in src/src/editor.rs. -/
def Editor.init : Editor :=
  { tab := .spriteEditor
    selectedSpritePage := 0
    selectedTool := 0
    bottomBarText := ""
    notification := []
    keyCombos := editorKeyCombos
    clipboard := Clipboard.new
    commands := Commands.new
    brushSize := BrushSize.tiny
    selectedSprite := 0 }

/-- From the free function `handle_key_combo` in src/src/editor.rs: dispatch
one recognized chord action against the session state and resources.  Copy
and Paste alert the notification sink and use the clipboard; the flips
transform the selected sprite in place; Undo/Redo drive the command history
(alerting the returned description); Save alerts "SAVED" and triggers the
excluded serialization collaborator; PreviousTab/NextTab switch the tab. -/
def handleKeyCombo (action : KeyComboAction) (st : Editor) (res : Resources) :
    Editor × Resources :=
  match action with
  | .copy =>
      let sprite := res.spriteSheet st.selectedSprite
      ({ st with notification := st.notification.alert "COPIED 1 X 1 SPRITES"
                 clipboard := st.clipboard.copySprite sprite }, res)
  | .paste =>
      let sprite := res.spriteSheet st.selectedSprite
      ({ st with notification := st.notification.alert "PASTED 1 X 1 SPRITES" },
       { res with spriteSheet := fun j =>
           if j = st.selectedSprite then st.clipboard.pasteInto sprite
           else res.spriteSheet j })
  | .flipVertically =>
      (st,
       { res with spriteSheet := fun j =>
           if j = st.selectedSprite then Sprite.flipVertically (res.spriteSheet j)
           else res.spriteSheet j })
  | .flipHorizontally =>
      (st,
       { res with spriteSheet := fun j =>
           if j = st.selectedSprite then Sprite.flipHorizontally (res.spriteSheet j)
           else res.spriteSheet j })
  | .undo =>
      let r := st.commands.undo res.spriteSheet
      ({ st with commands := r.1
                 notification :=
                   match r.2.2 with
                   | none => st.notification
                   | some msg => st.notification.alert msg },
       { res with spriteSheet := r.2.1 })
  | .redo =>
      let r := st.commands.redo res.spriteSheet
      ({ st with commands := r.1
                 notification :=
                   match r.2.2 with
                   | none => st.notification
                   | some msg => st.notification.alert msg },
       { res with spriteSheet := r.2.1 })
  | .save =>
      ({ st with notification := st.notification.alert "SAVED" }, res)
  | .previousTab =>
      ({ st with tab := st.tab.previous }, res)
  | .nextTab =>
      ({ st with tab := st.tab.next }, res)

/-- The multi-pixel stroke of the SpriteEdited handler in src/src/editor.rs:
for each brush offset (in order) write `color` at anchor plus offset. -/
def applyBrush (brush : BrushSize) (x y : Int) (color : Color) (s : Sprite) :
    Sprite :=
  brush.foldl (fun sp d => Sprite.pset sp (d.1 + x) (d.2 + y) color) s

/-- Uppercase hexadecimal rendering used by the FLAG bottom-bar text. -/
def hexUpper (n : Nat) : String :=
  String.map Char.toUpper (String.mk (Nat.toDigits 16 n))

/-- From `Editor::update` in src/src/editor.rs (an `ElmApp` impl), with the
sub-editor messages omitted along with their excluded UI state.  The sprite
shift operations dispatched by `ShiftDirection::shift` live in the sprite
module, which is not in the snapshot; `update` is therefore parametrized by
their combined implementation `shiftImpl`. -/
def Editor.update (shiftImpl : ShiftDirection → Sprite → Sprite) (msg : Msg)
    (st : Editor) (res : Resources) : Editor × Resources :=
  match msg with
  | .keyboardEvent ev =>
      let r := st.keyCombos.onEvent ev
      let st1 := { st with keyCombos := r.1 }
      let p :=
        match r.2 with
        | none => (st1, res)
        | some action => handleKeyCombo action st1 res
      match ev.state, ShiftDirection.fromKey ev.key with
      | .down, some dir =>
          (p.1,
           { p.2 with spriteSheet := fun j =>
               if j = p.1.selectedSprite then shiftImpl dir (p.2.spriteSheet j)
               else p.2.spriteSheet j })
      | _, _ => p
  | .spriteTabClicked => ({ st with tab := .spriteEditor }, res)
  | .mapButtonClicked => ({ st with tab := .mapEditor }, res)
  | .spritePageSelected page => ({ st with selectedSpritePage := page }, res)
  | .spriteButtonClicked sprite => ({ st with selectedSprite := sprite }, res)
  | .flagHovered bitNumber =>
      ({ st with bottomBarText :=
           "FLAG " ++ toString bitNumber ++ " (0X" ++ hexUpper (1 <<< bitNumber) ++ ")" },
       res)
  | .flagToggled flagIndex =>
      let flagValue := res.spriteFlags.fgetN st.selectedSprite flagIndex
      (st,
       { res with spriteFlags :=
           res.spriteFlags.fset st.selectedSprite flagIndex (! flagValue) })
  | .spriteEdited x y color =>
      let sprite := res.spriteSheet st.selectedSprite
      let previousColor := Sprite.pget sprite x y
      let commands' :=
        st.commands.push (.pixelChanged st.selectedSprite x y previousColor color)
      ({ st with commands := commands' },
       { res with spriteSheet := fun j =>
           if j = st.selectedSprite then applyBrush st.brushSize x y color sprite
           else res.spriteSheet j })
  | .toolSelected tool => ({ st with selectedTool := tool }, res)
  | .colorHovered c =>
      ({ st with bottomBarText := "COLOUR " ++ toString c }, res)
  | .clickedMapTile x y =>
      (st, { res with map := res.map.mset x y (st.selectedSprite % 256) })
  | .brushSizeSelected b =>
      ({ st with brushSize := b
                 bottomBarText := "BRUSH SIZE: " ++ b.toHumanReadable }, res)
  | .brushSizeSliderHovered =>
      ({ st with bottomBarText := "BRUSH SIZE: " ++ st.brushSize.toHumanReadable },
       res)

/-- A concrete all-blank resources bundle used by closed witness theorems. -/
def blankResources : Resources :=
  { spriteSheet := fun _ => List.replicate 64 0
    map := fun _ => 0
    spriteFlags := fun _ => 0 }

/-- Zipping a list with a second list of the same length and keeping the
second components returns the second list. -/
theorem zipWith_second_eq : ∀ (xs ys : List Color), xs.length = ys.length →
    List.zipWith (fun _a b => b) xs ys = ys
  | [], [], _ => rfl
  | [], _ :: _, h => by simp at h
  | _ :: _, [], h => by simp at h
  | _ :: xs, y :: ys, h => by
      simp only [List.zipWith]
      exact congrArg (y :: ·) (zipWith_second_eq xs ys (by simpa using h))

/-- Reading from a list after a point update: the updated value at the updated
in-range index, the old value everywhere else. -/
theorem getD_set_ite {α : Type} (l : List α) (i j : Nat) (a d : α) :
    (l.set i a).getD j d = if i = j ∧ j < l.length then a else l.getD j d := by
  by_cases hij : i = j
  · subst hij
    by_cases hlen : i < l.length
    · rw [if_pos ⟨rfl, hlen⟩, List.getD_eq_getD_get?, List.get?_set_eq_of_lt a hlen]
      rfl
    · rw [if_neg (fun hc => hlen hc.2),
          List.getD_eq_default _ _ (by simpa using Nat.le_of_not_lt hlen),
          List.getD_eq_default _ _ (Nat.le_of_not_lt hlen)]
  · rw [if_neg (fun hc => hij hc.1), List.getD_eq_getD_get?, List.getD_eq_getD_get?,
        List.get?_set_ne _ _ hij]

/-- C1 counterexample: handling the chord-triggered Paste action on the
initial session does not push any Command onto the command history (the
`past` stack does not grow), so the claim that every chord-triggered
transform action pushes a reversible Command is false on the code. -/
theorem paste_pushes_no_command_cex :
    ¬ ((handleKeyCombo .paste Editor.init blankResources).1.commands.past.length
        = Editor.init.commands.past.length + 1) := by
  decide

/-- C1 (amended): handling any of the chord-triggered transform actions
(Paste, FlipVertically, FlipHorizontally) mutates the selected sprite in
place but pushes nothing onto the command history, which is left entirely
unchanged; these edits are therefore not undoable. -/
theorem transform_actions_push_no_command (st : Editor) (res : Resources)
    (action : KeyComboAction)
    (h : action = .paste ∨ action = .flipVertically ∨ action = .flipHorizontally) :
    (handleKeyCombo action st res).1.commands = st.commands := by
  rcases h with h | h | h <;> subst h <;> rfl

/-- Witness for the amended C1 at the concrete action Paste on the initial
session state. -/
theorem transform_actions_push_no_command_witness :
    (KeyComboAction.paste = KeyComboAction.paste ∨
      KeyComboAction.paste = KeyComboAction.flipVertically ∨
      KeyComboAction.paste = KeyComboAction.flipHorizontally) ∧
    (handleKeyCombo .paste Editor.init blankResources).1.commands
      = Editor.init.commands :=
  ⟨Or.inl rfl,
   transform_actions_push_no_command Editor.init blankResources .paste (Or.inl rfl)⟩

/-- C4: pushing a command appends it to `past` and leaves `future` empty, for
every history state; in particular a push after any number of undos discards
all pending redo entries, and the one push site in `Editor.update` (the
SpriteEdited handler) always leaves `future` empty. -/
theorem push_appends_past_clears_future (cmds : Commands) (c : Command) :
    (cmds.push c).past = cmds.past ++ [c] ∧ (cmds.push c).future = [] ∧
    (∀ (shiftImpl : ShiftDirection → Sprite → Sprite) (st : Editor)
        (res : Resources) (x y : Nat) (color : Color),
      (Editor.update shiftImpl (.spriteEdited x y color) st res).1.commands.future
        = []) :=
  ⟨rfl, rfl, fun _ _ _ _ _ _ => rfl⟩

/-- C6: undo with empty `past` is a benign no-op returning the session and
resources unchanged, and symmetrically redo with empty `future`. -/
theorem undo_redo_empty_noop (st : Editor) (res : Resources) :
    (st.commands.past = [] → handleKeyCombo .undo st res = (st, res)) ∧
    (st.commands.future = [] → handleKeyCombo .redo st res = (st, res)) := by
  constructor
  · intro h
    simp [handleKeyCombo, Commands.undo, h]
  · intro h
    simp [handleKeyCombo, Commands.redo, h]

/-- Witness for C6 at the initial session state, whose history stacks are
both empty. -/
theorem undo_redo_empty_noop_witness :
    Editor.init.commands.past = [] ∧ Editor.init.commands.future = [] ∧
    handleKeyCombo .undo Editor.init blankResources = (Editor.init, blankResources) ∧
    handleKeyCombo .redo Editor.init blankResources = (Editor.init, blankResources) :=
  ⟨rfl, rfl,
   (undo_redo_empty_noop Editor.init blankResources).1 rfl,
   (undo_redo_empty_noop Editor.init blankResources).2 rfl⟩

/-- C7: the session has exactly two modes; the PreviousTab and NextTab
actions each switch the tab to the other mode and change nothing else, so
either composition of the two actions restores the original tab. -/
theorem tab_switch_spec (st : Editor) (res : Resources) :
    handleKeyCombo .previousTab st res = ({ st with tab := st.tab.previous }, res) ∧
    handleKeyCombo .nextTab st res = ({ st with tab := st.tab.next }, res) ∧
    st.tab.previous.next = st.tab ∧ st.tab.next.previous = st.tab ∧
    (∀ t : Tab, t = .spriteEditor ∨ t = .mapEditor) :=
  ⟨rfl, rfl, by cases st.tab <;> rfl, by cases st.tab <;> rfl,
   fun t => by cases t
               · exact Or.inl rfl
               · exact Or.inr rfl⟩

/-- C5: copying a 64-cell sprite and pasting into another 64-cell sprite
makes the target equal the source, regardless of the target's prior
content or the clipboard's prior content. -/
theorem copy_then_paste_roundtrip (cb : Clipboard) (s1 s2 : Sprite)
    (h1 : s1.length = 64) (h2 : s2.length = 64) :
    (cb.copySprite s1).pasteInto s2 = s1 := by
  unfold Clipboard.copySprite Clipboard.pasteInto
  rw [zipWith_second_eq s2 s1 (h2.trans h1.symm), h1, ← h2, List.drop_length,
      List.append_nil]

/-- Witness for C5 on two concrete 64-cell sprites of distinct colors. -/
theorem copy_then_paste_roundtrip_witness :
    (List.replicate 64 (3 : Color)).length = 64 ∧
    (Clipboard.new.copySprite (List.replicate 64 3)).pasteInto
        (List.replicate 64 5)
      = List.replicate 64 3 :=
  ⟨by decide,
   copy_then_paste_roundtrip Clipboard.new _ _ (by decide) (by decide)⟩

/-- C10: a fresh clipboard holds exactly 64 cells all equal to color 0 (a
genuine palette color, below the palette size 16); consequently firing the
Paste action before any Copy overwrites the selected 64-cell sprite with
all zeros. -/
theorem fresh_clipboard_paste_spec (st : Editor) (res : Resources)
    (hc : st.clipboard = Clipboard.new)
    (hs : (res.spriteSheet st.selectedSprite).length = 64) :
    Clipboard.new.data = List.replicate 64 0 ∧
    (∀ c ∈ Clipboard.new.data, c < 16) ∧
    (handleKeyCombo .paste st res).2.spriteSheet st.selectedSprite
      = List.replicate 64 0 := by
  refine ⟨rfl, ?_, ?_⟩
  · intro c hcm
    rw [show Clipboard.new.data = List.replicate 64 0 from rfl,
        List.mem_replicate] at hcm
    obtain ⟨-, rfl⟩ := hcm
    norm_num
  · show (if st.selectedSprite = st.selectedSprite
        then st.clipboard.pasteInto (res.spriteSheet st.selectedSprite)
        else res.spriteSheet st.selectedSprite) = List.replicate 64 0
    rw [if_pos rfl, hc]
    unfold Clipboard.pasteInto Clipboard.new
    rw [zipWith_second_eq _ _ (by simpa using hs)]
    rw [List.length_replicate, ← hs, List.drop_length, List.append_nil]

/-- Witness for C10: pasting on the initial session (clipboard untouched)
fills sprite 0 with zeros. -/
theorem fresh_clipboard_paste_spec_witness :
    Editor.init.clipboard = Clipboard.new ∧
    (handleKeyCombo .paste Editor.init blankResources).2.spriteSheet 0
      = List.replicate 64 0 :=
  ⟨rfl,
   (fresh_clipboard_paste_spec Editor.init blankResources rfl (by decide)).2.2⟩

/-- A key is a modifier exactly when it is Control. -/
theorem Key.isModifier_iff (hkey : Key) :
    hkey.isModifier = true ↔ hkey = Key.control := by
  cases hkey <;> simp [Key.isModifier]

/-- One recognizer step keeps every held key a modifier (here: Control). -/
theorem onEvent_held_all_control {A : Type} (kc : KeyCombos A)
    (hk : ∀ hkey ∈ kc.held, hkey = Key.control) (e : KeyboardEvent) :
    ∀ hkey ∈ (kc.onEvent e).1.held, hkey = Key.control := by
  intro hkey hkm
  obtain ⟨ekey, estate⟩ := e
  cases estate with
  | up =>
      simp only [KeyCombos.onEvent] at hkm
      split at hkm
      · exact hk hkey (List.mem_of_mem_erase hkm)
      · exact hk hkey hkm
  | down =>
      simp only [KeyCombos.onEvent] at hkm
      split at hkm
      · rcases List.mem_append.mp hkm with hmem | hmem
        · exact hk hkey hmem
        · next hcond =>
            rw [List.mem_singleton.mp hmem]
            exact (Key.isModifier_iff ekey).mp hcond.1
      · exact hk hkey hkm

/-- Folding any event history through the recognizer keeps every held key a
modifier (here: Control). -/
theorem runEvents_held_all_control {A : Type} (kc : KeyCombos A)
    (hk : ∀ hkey ∈ kc.held, hkey = Key.control) (evs : List KeyboardEvent) :
    ∀ hkey ∈ (runEvents kc evs).held, hkey = Key.control := by
  induction evs generalizing kc with
  | nil => exact hk
  | cons e rest ih =>
      simp only [runEvents, List.foldl_cons] at *
      exact ih (kc.onEvent e).1 (onEvent_held_all_control kc hk e)

/-- One recognizer step never changes the registered chord table. -/
theorem onEvent_table {A : Type} (kc : KeyCombos A) (e : KeyboardEvent) :
    (kc.onEvent e).1.table = kc.table := by
  obtain ⟨ekey, estate⟩ := e
  cases estate with
  | up =>
      simp only [KeyCombos.onEvent]
      split <;> rfl
  | down => rfl

/-- Folding any event history through the recognizer never changes the
registered chord table. -/
theorem runEvents_table {A : Type} (kc : KeyCombos A)
    (evs : List KeyboardEvent) : (runEvents kc evs).table = kc.table := by
  induction evs generalizing kc with
  | nil => rfl
  | cons e rest ih =>
      simp only [runEvents, List.foldl_cons] at *
      exact (ih (kc.onEvent e).1).trans (onEvent_table kc e)

/-- The chord table registered by the editor, as an explicit list. -/
theorem editor_table_eq :
    editorKeyCombos.table =
      [{ action := .copy, trigger := .c, mods := [.control] },
       { action := .paste, trigger := .v, mods := [.control] },
       { action := .undo, trigger := .z, mods := [.control] },
       { action := .redo, trigger := .y, mods := [.control] },
       { action := .save, trigger := .s, mods := [.control] },
       { action := .flipVertically, trigger := .v, mods := [] },
       { action := .flipHorizontally, trigger := .f, mods := [] }] := rfl

/-- Scanning the editor's table for a V key-down with modifier set exactly
equal to Control yields the Paste action (the earlier Copy row has a
different trigger key; the later bare-V FlipVertically row is never
reached). -/
theorem findCombo_editor_v (current : List Key)
    (hc : eqSet [Key.control] current = true) :
    findCombo Key.v current editorKeyCombos.table = some KeyComboAction.paste := by
  rw [editor_table_eq]
  simp [findCombo, hc]

/-- C3: chord matching is exact-set, not subset.  For every event history
after which the recognizer holds Control, pressing V fires exactly the
Control-modified Paste action, never the bare-V FlipVertically action; the
recognizer returns at most one action per key-down. -/
theorem chord_exact_set_match (evs : List KeyboardEvent)
    (h : Key.control ∈ (runEvents editorKeyCombos evs).held) :
    ((runEvents editorKeyCombos evs).onEvent ⟨.v, .down⟩).2
        = some KeyComboAction.paste ∧
    ((runEvents editorKeyCombos evs).onEvent ⟨.v, .down⟩).2
        ≠ some KeyComboAction.flipVertically := by
  have hall : ∀ hkey ∈ (runEvents editorKeyCombos evs).held, hkey = Key.control :=
    runEvents_held_all_control editorKeyCombos
      (fun hkey hk => absurd hk (List.not_mem_nil hkey)) evs
  set kc := runEvents editorKeyCombos evs with hkc
  have hvnot : Key.v ∉ kc.held := fun hv => by
    have := hall Key.v hv
    exact absurd this (by decide)
  have htab : kc.table = editorKeyCombos.table := by
    rw [hkc]
    exact runEvents_table editorKeyCombos evs
  have hmatch : (kc.onEvent ⟨.v, .down⟩).2
      = findCombo Key.v (kc.held.erase Key.v) kc.table := by
    simp [KeyCombos.onEvent, Key.isModifier]
  have herase : kc.held.erase Key.v = kc.held := List.erase_of_not_mem hvnot
  have heq : eqSet [Key.control] kc.held = true := by
    simp only [eqSet, List.all_eq_true, Bool.and_eq_true, decide_eq_true_eq]
    refine ⟨?_, ?_⟩
    · intro hkey hk
      rw [List.mem_singleton.mp hk]
      exact h
    · intro hkey hk
      rw [List.mem_singleton, hall hkey hk]
  have : (kc.onEvent ⟨.v, .down⟩).2 = some KeyComboAction.paste := by
    rw [hmatch, herase, htab, findCombo_editor_v kc.held heq]
  exact ⟨this, by rw [this]; decide⟩

/-- Witness for C3: the history that presses Control leaves Control held,
and pressing V then fires Paste. -/
theorem chord_exact_set_match_witness :
    Key.control ∈ (runEvents editorKeyCombos [⟨Key.control, .down⟩]).held ∧
    ((runEvents editorKeyCombos [⟨Key.control, .down⟩]).onEvent ⟨.v, .down⟩).2
      = some KeyComboAction.paste :=
  ⟨by decide, (chord_exact_set_match [⟨Key.control, .down⟩] (by decide)).1⟩

/-- A pixel write never changes the sprite's length. -/
theorem length_pset (s : Sprite) (x y : Int) (c : Color) :
    (Sprite.pset s x y c).length = s.length := by
  unfold Sprite.pset
  split <;> simp

/-- Reading a 64-cell sprite after one pixel write: the written color at the
written cell, the old color at every other in-bounds cell (out-of-bounds
writes are skipped). -/
theorem pget_pset (s : Sprite) (hs : s.length = 64) (x y : Int) (c : Color)
    (px py : Int) (hp : 0 ≤ px ∧ px < 8 ∧ 0 ≤ py ∧ py < 8) :
    Sprite.pget (Sprite.pset s x y c) px py
      = if px = x ∧ py = y then c else Sprite.pget s px py := by
  unfold Sprite.pget Sprite.pset
  by_cases hxy : 0 ≤ x ∧ x < 8 ∧ 0 ≤ y ∧ y < 8
  · rw [if_pos hxy, if_pos hp, if_pos hp, getD_set_ite, hs]
    obtain ⟨hpx0, hpx8, hpy0, hpy8⟩ := hp
    obtain ⟨hx0, hx8, hy0, hy8⟩ := hxy
    by_cases hpe : px = x ∧ py = y
    · rw [if_pos hpe, if_pos (by omega)]
    · rw [if_neg hpe, if_neg (by omega)]
  · have hne : ¬ (px = x ∧ py = y) := by
      rintro ⟨rfl, rfl⟩
      exact hxy hp
    rw [if_neg hxy, if_neg hne]

/-- A brush application never changes the sprite's length. -/
theorem length_applyBrush (brush : BrushSize) (x y : Int) (c : Color) :
    ∀ s : Sprite, (applyBrush brush x y c s).length = s.length := by
  induction brush with
  | nil => intro s; rfl
  | cons d rest ih =>
      intro s
      show (applyBrush rest x y c (Sprite.pset s (d.1 + x) (d.2 + y) c)).length
          = s.length
      rw [ih, length_pset]

/-- Reading a 64-cell sprite after a whole brush application: the brush color
at every in-bounds cell covered by some offset, the old color at every other
in-bounds cell. -/
theorem pget_applyBrush (brush : BrushSize) (x y : Int) (c : Color) :
    ∀ (s : Sprite), s.length = 64 → ∀ px py : Int,
      (0 ≤ px ∧ px < 8 ∧ 0 ≤ py ∧ py < 8) →
      Sprite.pget (applyBrush brush x y c s) px py
        = if ∃ d ∈ brush, px = d.1 + x ∧ py = d.2 + y then c
          else Sprite.pget s px py := by
  induction brush with
  | nil =>
      intro s _hs px py _hp
      rw [if_neg (by simp)]
      rfl
  | cons d rest ih =>
      intro s hs px py hp
      have hstep : applyBrush (d :: rest) x y c s
          = applyBrush rest x y c (Sprite.pset s (d.1 + x) (d.2 + y) c) := rfl
      rw [hstep, ih _ (by rw [length_pset]; exact hs) px py hp]
      by_cases hrest : ∃ e ∈ rest, px = e.1 + x ∧ py = e.2 + y
      · rw [if_pos hrest]
        obtain ⟨e, he, hee⟩ := hrest
        rw [if_pos ⟨e, List.mem_cons_of_mem d he, hee⟩]
      · rw [if_neg hrest, pget_pset s hs _ _ c px py hp]
        by_cases hd : px = d.1 + x ∧ py = d.2 + y
        · rw [if_pos hd, if_pos ⟨d, List.mem_cons_self d rest, hd⟩]
        · rw [if_neg hd, if_neg ?_]
          rintro ⟨e, he, hee⟩
          rcases List.mem_cons.mp he with rfl | he'
          · exact hd hee
          · exact hrest ⟨e, he', hee⟩

/-- C2: handling a sprite-edit message at anchor (x, y) with color c pushes
exactly one PixelChanged command whose `before` is the anchor cell's color
read before any write and whose `after` is c, writes c into the selected
sprite at anchor plus every brush offset (out-of-bounds writes skipped),
changes no cell outside the brush's offset set, no other sprite, and nothing
else of the session. -/
theorem spriteEdited_spec (shiftImpl : ShiftDirection → Sprite → Sprite)
    (st : Editor) (res : Resources) (x y : Nat) (color : Color)
    (hs : (res.spriteSheet st.selectedSprite).length = 64) :
    (Editor.update shiftImpl (.spriteEdited x y color) st res).1.commands
      = st.commands.push
          (.pixelChanged st.selectedSprite x y
            (Sprite.pget (res.spriteSheet st.selectedSprite) x y) color) ∧
    (Editor.update shiftImpl (.spriteEdited x y color) st res).1.commands.past
      = st.commands.past
          ++ [.pixelChanged st.selectedSprite x y
                (Sprite.pget (res.spriteSheet st.selectedSprite) x y) color] ∧
    (∀ px py : Int, (0 ≤ px ∧ px < 8 ∧ 0 ≤ py ∧ py < 8) →
      Sprite.pget
          ((Editor.update shiftImpl (.spriteEdited x y color) st res).2.spriteSheet
            st.selectedSprite) px py
        = if ∃ d ∈ st.brushSize, px = d.1 + (x : Int) ∧ py = d.2 + (y : Int)
          then color
          else Sprite.pget (res.spriteSheet st.selectedSprite) px py) ∧
    (∀ j, j ≠ st.selectedSprite →
      (Editor.update shiftImpl (.spriteEdited x y color) st res).2.spriteSheet j
        = res.spriteSheet j) ∧
    (Editor.update shiftImpl (.spriteEdited x y color) st res).2.map = res.map ∧
    (Editor.update shiftImpl (.spriteEdited x y color) st res).1.tab = st.tab := by
  refine ⟨rfl, rfl, ?_, ?_, rfl, rfl⟩
  · intro px py hp
    have hsel : (Editor.update shiftImpl (.spriteEdited x y color) st res).2.spriteSheet
          st.selectedSprite
        = applyBrush st.brushSize x y color (res.spriteSheet st.selectedSprite) := by
      show (if st.selectedSprite = st.selectedSprite then _ else _) = _
      rw [if_pos rfl]
    rw [hsel, pget_applyBrush st.brushSize x y color _ hs px py hp]
  · intro j hj
    show (if j = st.selectedSprite then _ else _) = _
    rw [if_neg hj]

/-- Witness for C2: editing the all-zero sprite 0 at anchor (0, 0) with
color 1 and the tiny brush grows the past stack by exactly one command. -/
theorem spriteEdited_spec_witness :
    (blankResources.spriteSheet Editor.init.selectedSprite).length = 64 ∧
    (Editor.update (fun _ s => s) (.spriteEdited 0 0 1) Editor.init
        blankResources).1.commands.past.length = 1 := by
  refine ⟨by decide, ?_⟩
  rw [(spriteEdited_spec (fun _ s => s) Editor.init blankResources 0 0 1
        (by decide)).2.1]
  rfl

/-- C9: handling a ClickedMapTile message writes the currently selected
sprite index into the map cell at (x, y) (the u8 cast is lossless below
256), leaves the whole session state — in particular both history stacks —
and the sprite sheet unchanged, and undo/redo never touch the map at all,
so no sequence of undos can revert a map tile edit. -/
theorem clickedMapTile_spec (shiftImpl : ShiftDirection → Sprite → Sprite)
    (st : Editor) (res : Resources) (x y : Nat)
    (h : st.selectedSprite < 256) :
    (Editor.update shiftImpl (.clickedMapTile x y) st res).2.map (x, y)
        = st.selectedSprite ∧
    (Editor.update shiftImpl (.clickedMapTile x y) st res).1 = st ∧
    (Editor.update shiftImpl (.clickedMapTile x y) st res).2.spriteSheet
        = res.spriteSheet ∧
    (∀ (st' : Editor) (res' : Resources),
      (handleKeyCombo .undo st' res').2.map = res'.map ∧
      (handleKeyCombo .redo st' res').2.map = res'.map) := by
  refine ⟨?_, rfl, rfl, ?_⟩
  · show (if ((x, y) : Nat × Nat) = (x, y) then st.selectedSprite % 256
        else res.map (x, y)) = st.selectedSprite
    rw [if_pos rfl]
    exact Nat.mod_eq_of_lt h
  · intro st' res'
    exact ⟨rfl, rfl⟩

/-- Witness for C9 at map cell (2, 3) on the initial session. -/
theorem clickedMapTile_spec_witness :
    Editor.init.selectedSprite < 256 ∧
    (Editor.update (fun _ s => s) (.clickedMapTile 2 3) Editor.init
        blankResources).2.map (2, 3) = Editor.init.selectedSprite :=
  ⟨by decide,
   (clickedMapTile_spec (fun _ s => s) Editor.init blankResources 2 3
      (by decide)).1⟩

/-- Scanning the editor's table for a W, A or D key-down matches nothing:
no registered chord has one of these trigger keys. -/
theorem findCombo_editor_wad (key : Key) (current : List Key)
    (h : key = Key.w ∨ key = Key.a ∨ key = Key.d) :
    findCombo key current editorKeyCombos.table = (none : Option KeyComboAction) := by
  rcases h with rfl | rfl | rfl <;> rw [editor_table_eq] <;> simp [findCombo]

/-- Scanning the editor's table for an S key-down matches exactly the Save
chord, and only when the current modifier set is exactly Control. -/
theorem findCombo_editor_s (current : List Key) :
    findCombo Key.s current editorKeyCombos.table
      = if eqSet [Key.control] current = true then some KeyComboAction.save
        else none := by
  rw [editor_table_eq]
  simp [findCombo]

/-- A key-down of a non-modifier key leaves the recognizer state unchanged
and matches the key against the table under the held set minus the key. -/
theorem onEvent_down_nonmodifier {A : Type} (kc : KeyCombos A) (key : Key)
    (h : key.isModifier = false) :
    kc.onEvent ⟨key, .down⟩
      = (kc, findCombo key (kc.held.erase key) kc.table) := by
  simp only [KeyCombos.onEvent]
  rw [if_neg (fun hc => by rw [h] at hc; exact Bool.false_ne_true hc.1)]

/-- C8: a key-down of W, A, S or D — whatever modifiers are held — shifts the
selected sprite's pixels in the corresponding direction (up, left, down,
right via ShiftDirection.fromKey) and pushes nothing onto the command
history, so no sprite shift is ever undoable; in particular an S key-down
with exactly Control held both fires the Save chord (alerting "SAVED") and
shifts the sprite down. -/
theorem wasd_shift_spec (shiftImpl : ShiftDirection → Sprite → Sprite)
    (st : Editor) (res : Resources) (key : Key) (dir : ShiftDirection)
    (htab : st.keyCombos.table = editorKeyCombos.table)
    (hdir : ShiftDirection.fromKey key = some dir) :
    (Editor.update shiftImpl (.keyboardEvent ⟨key, .down⟩) st res).1.commands
        = st.commands ∧
    (Editor.update shiftImpl (.keyboardEvent ⟨key, .down⟩) st res).2.spriteSheet
        st.selectedSprite
        = shiftImpl dir (res.spriteSheet st.selectedSprite) ∧
    (key = Key.s → st.keyCombos.held = [Key.control] →
      (Editor.update shiftImpl (.keyboardEvent ⟨key, .down⟩) st res).1.notification
        = st.notification ++ ["SAVED"]) := by
  cases key with
  | w =>
      obtain rfl : ShiftDirection.up = dir := Option.some.inj hdir
      have hone := onEvent_down_nonmodifier st.keyCombos Key.w rfl
      rw [htab, findCombo_editor_wad Key.w _ (Or.inl rfl)] at hone
      refine ⟨?_, ?_, fun hks _ => absurd hks (by decide)⟩
      · simp only [Editor.update, hone, ShiftDirection.fromKey]
      · simp [Editor.update, hone, ShiftDirection.fromKey]
  | a =>
      obtain rfl : ShiftDirection.left = dir := Option.some.inj hdir
      have hone := onEvent_down_nonmodifier st.keyCombos Key.a rfl
      rw [htab, findCombo_editor_wad Key.a _ (Or.inr (Or.inl rfl))] at hone
      refine ⟨?_, ?_, fun hks _ => absurd hks (by decide)⟩
      · simp only [Editor.update, hone, ShiftDirection.fromKey]
      · simp [Editor.update, hone, ShiftDirection.fromKey]
  | d =>
      obtain rfl : ShiftDirection.right = dir := Option.some.inj hdir
      have hone := onEvent_down_nonmodifier st.keyCombos Key.d rfl
      rw [htab, findCombo_editor_wad Key.d _ (Or.inr (Or.inr rfl))] at hone
      refine ⟨?_, ?_, fun hks _ => absurd hks (by decide)⟩
      · simp only [Editor.update, hone, ShiftDirection.fromKey]
      · simp [Editor.update, hone, ShiftDirection.fromKey]
  | s =>
      obtain rfl : ShiftDirection.down = dir := Option.some.inj hdir
      have hone := onEvent_down_nonmodifier st.keyCombos Key.s rfl
      rw [htab, findCombo_editor_s] at hone
      by_cases hE : eqSet [Key.control] (st.keyCombos.held.erase Key.s) = true
      · rw [if_pos hE] at hone
        refine ⟨?_, ?_, fun _ _ => ?_⟩
        · simp only [Editor.update, hone, ShiftDirection.fromKey]
          rfl
        · simp [Editor.update, hone, ShiftDirection.fromKey, handleKeyCombo]
        · simp only [Editor.update, hone, ShiftDirection.fromKey]
          rfl
      · rw [if_neg hE] at hone
        refine ⟨?_, ?_, fun _ hheld => ?_⟩
        · simp only [Editor.update, hone, ShiftDirection.fromKey]
        · simp [Editor.update, hone, ShiftDirection.fromKey]
        · rw [hheld] at hE
          exact absurd (by decide) hE
  | control => simp [ShiftDirection.fromKey] at hdir
  | _ => simp [ShiftDirection.fromKey] at hdir

/-- Witness for C8: an S key-down on a session holding exactly Control both
alerts "SAVED" and leaves the command history unchanged. -/
theorem wasd_shift_spec_witness :
    ({ Editor.init with
        keyCombos := { editorKeyCombos with held := [Key.control] } } :
          Editor).keyCombos.table = editorKeyCombos.table ∧
    ShiftDirection.fromKey Key.s = some ShiftDirection.down ∧
    (Editor.update (fun _ s => s) (.keyboardEvent ⟨Key.s, .down⟩)
        { Editor.init with
          keyCombos := { editorKeyCombos with held := [Key.control] } }
        blankResources).1.notification
      = ({ Editor.init with
            keyCombos := { editorKeyCombos with held := [Key.control] } } :
              Editor).notification ++ ["SAVED"] :=
  ⟨rfl, rfl,
   (wasd_shift_spec (fun _ s => s)
      { Editor.init with
        keyCombos := { editorKeyCombos with held := [Key.control] } }
      blankResources Key.s ShiftDirection.down rfl rfl).2.2 rfl rfl⟩

end Runty8
